import Mathlib

/-!
Shallow embedding of the `colorbuf` crate (src/lib.rs, src/bitmap/mod.rs,
src/ops/mod.rs) and proofs about it.

Modelling conventions:
* Rust `f32` channel arithmetic in the bitmap codec is modelled over `ℚ`
  (the codec only multiplies/divides by 255 and divides by alpha, so the
  rational idealization is exact up to float rounding); the transcendental
  gamma blend is modelled over `ℝ` with `Real.rpow` standing for `powf`.
* Rust `u64`/`usize` are modelled as `ℕ` (no claim under scrutiny involves
  integer overflow).
* A Rust panic (out-of-bounds slice index, `unwrap` on `Err`) is modelled
  by `Option.none`: fallible operations return
  `Option (Except ColorBufError _)` where `none` is a panic and
  `some (.error e)` is a returned `Err(e)`.
* The `&mut self` / `&mut [u8]` mutation is modelled by explicit state
  passing: `set_pixel` returns the updated buffer, `to_bitmap` returns the
  updated output bytes together with the reported stride out-parameter.
* Bytes are modelled as `ℕ`; the Rust saturating-truncating `as u8` cast
  from `f32` is `quantByte` below, which clamps into `[0, 255]`.
-/

namespace Colorbuf

/-- Error type from src/lib.rs (`ColorBufError`). -/
inductive ColorBufError where
  | InvalidCoordinate
  | InvalidDimensions
deriving DecidableEq, Repr

/-- Color of a pixel, from src/lib.rs (`Color`), channels over `ℚ`. -/
structure Color where
  r : ℚ
  g : ℚ
  b : ℚ
  a : ℚ
deriving DecidableEq, Repr

/-- Channel order of a bitmap, from src/bitmap/mod.rs (`ColorFormat`). -/
inductive ColorFormat where
  | RGBA
  | ARGB
  | RGB
deriving DecidableEq, Repr

/-- Bits per channel, from src/bitmap/mod.rs (`BitDepth`). -/
inductive BitDepth where
  | Eight
deriving DecidableEq, Repr

/-- Bytes per pixel of a layout, from src/bitmap/mod.rs (`get_bpp_factor`). -/
def get_bpp_factor (format : ColorFormat) (_depth : BitDepth) : ℕ :=
  match format with
  | .RGBA => 4
  | .ARGB => 4
  | .RGB => 3

/-- The Rust saturating `as u8` cast applied to `v * 255`: truncate toward
zero and clamp into `[0, 255]` (model of `(v * 255f32) as u8`). -/
def quantByte (v : ℚ) : ℕ :=
  min 255 (Int.floor (v * 255)).toNat

/-- Checked byte store: Rust `data[i] = v` panics (here: `none`) when `i`
is out of bounds. -/
def setByte (l : List ℕ) (i v : ℕ) : Option (List ℕ) :=
  if i < l.length then some (l.set i v) else none

/-- Bitmap-backed buffer, from src/bitmap/mod.rs (`BitmapColorBuf`). -/
structure BitmapColorBuf where
  data : List ℕ
  format : ColorFormat
  depth : BitDepth
  rows : ℕ
  pixels_per_row : ℕ
  stride : ℕ

/-- Constructor `BitmapColorBuf::new`: stores the fields, no validation. -/
def BitmapColorBuf.new (format : ColorFormat) (depth : BitDepth)
    (rows pixels_per_row stride : ℕ) (data : List ℕ) : BitmapColorBuf :=
  ⟨data, format, depth, rows, pixels_per_row, stride⟩

/-- Offset formula `BitmapColorBuf::get_offset`. -/
def BitmapColorBuf.get_offset (bb : BitmapColorBuf) (x y : ℕ) : ℕ :=
  y * bb.stride + get_bpp_factor bb.format bb.depth * x

/-- The codec `get_pixel` from src/bitmap/mod.rs: bounds check, then read
`bpp` consecutive bytes at the offset and map byte `b` to `b / 255` in the
layout's channel order (RGB forces alpha to 1). A read past the end of
`data` is a Rust panic, modelled as `none`. -/
def BitmapColorBuf.get_pixel (bb : BitmapColorBuf) (x y : ℕ) :
    Option (Except ColorBufError Color) :=
  if x ≥ bb.pixels_per_row ∨ y ≥ bb.rows then
    some (.error .InvalidCoordinate)
  else
    let index := bb.get_offset x y
    match bb.format, bb.depth with
    | .RGBA, .Eight => do
      let r ← bb.data[index]?
      let g ← bb.data[index + 1]?
      let b ← bb.data[index + 2]?
      let a ← bb.data[index + 3]?
      some (.ok ⟨(r : ℚ) / 255, (g : ℚ) / 255, (b : ℚ) / 255, (a : ℚ) / 255⟩)
    | .ARGB, .Eight => do
      let a ← bb.data[index]?
      let r ← bb.data[index + 1]?
      let g ← bb.data[index + 2]?
      let b ← bb.data[index + 3]?
      some (.ok ⟨(r : ℚ) / 255, (g : ℚ) / 255, (b : ℚ) / 255, (a : ℚ) / 255⟩)
    | .RGB, .Eight => do
      let r ← bb.data[index]?
      let g ← bb.data[index + 1]?
      let b ← bb.data[index + 2]?
      some (.ok ⟨(r : ℚ) / 255, (g : ℚ) / 255, (b : ℚ) / 255, 1⟩)

/-- The codec `set_pixel` from src/bitmap/mod.rs: bounds check, quantize
each channel with the saturating truncation `(v * 255) as u8`, and store in
the layout's byte order. For RGB each of r, g, b is first divided by alpha
(the source's straight-alpha to implied-opaque policy) and no alpha byte is
stored. A store past the end of `data` is a panic (`none`). -/
def BitmapColorBuf.set_pixel (bb : BitmapColorBuf) (x y : ℕ) (color : Color) :
    Option (Except ColorBufError BitmapColorBuf) :=
  if x ≥ bb.pixels_per_row ∨ y ≥ bb.rows then
    some (.error .InvalidCoordinate)
  else
    let index := bb.get_offset x y
    match bb.format, bb.depth with
    | .RGBA, .Eight => do
      let d1 ← setByte bb.data index (quantByte color.r)
      let d2 ← setByte d1 (index + 1) (quantByte color.g)
      let d3 ← setByte d2 (index + 2) (quantByte color.b)
      let d4 ← setByte d3 (index + 3) (quantByte color.a)
      some (.ok { bb with data := d4 })
    | .ARGB, .Eight => do
      let d1 ← setByte bb.data index (quantByte color.a)
      let d2 ← setByte d1 (index + 1) (quantByte color.r)
      let d3 ← setByte d2 (index + 2) (quantByte color.g)
      let d4 ← setByte d3 (index + 3) (quantByte color.b)
      some (.ok { bb with data := d4 })
    | .RGB, .Eight => do
      let d1 ← setByte bb.data index (quantByte (color.r / color.a))
      let d2 ← setByte d1 (index + 1) (quantByte (color.g / color.a))
      let d3 ← setByte d2 (index + 2) (quantByte (color.b / color.a))
      some (.ok { bb with data := d3 })

/-- Accessor `get_width` (returns `pixels_per_row`). -/
def BitmapColorBuf.get_width (bb : BitmapColorBuf) : ℕ :=
  bb.pixels_per_row

/-- Accessor `get_height` (returns `rows`). -/
def BitmapColorBuf.get_height (bb : BitmapColorBuf) : ℕ :=
  bb.rows

/-- The `ColorBuf` trait from src/lib.rs as a record of operations over a
state type `σ` (state passing replaces `&mut self`). -/
structure ColorBuf (σ : Type) where
  get_pixel : σ → ℕ → ℕ → Option (Except ColorBufError Color)
  set_pixel : σ → ℕ → ℕ → Color → Option (Except ColorBufError σ)
  get_width : σ → ℕ
  get_height : σ → ℕ

/-- The `impl ColorBuf for BitmapColorBuf` instance. -/
def bitmapColorBufOps : ColorBuf BitmapColorBuf where
  get_pixel := BitmapColorBuf.get_pixel
  set_pixel := BitmapColorBuf.set_pixel
  get_width := BitmapColorBuf.get_width
  get_height := BitmapColorBuf.get_height

/-- Sub-region view, from src/ops/mod.rs (`SubRegionColorBuf`); the
`&mut B` backing reference is modelled by holding the backing state. -/
structure SubRegionColorBuf (σ : Type) where
  backing : σ
  reg_x : ℕ
  reg_y : ℕ
  width : ℕ
  height : ℕ

/-- Constructor `SubRegionColorBuf::new` from src/ops/mod.rs: rejects a
rectangle that is not strictly interior to the backing buffer. -/
def SubRegionColorBuf.new {σ : Type} (ops : ColorBuf σ) (backing : σ)
    (start_x start_y width height : ℕ) :
    Except ColorBufError (SubRegionColorBuf σ) :=
  if start_x + width ≥ ops.get_width backing ∨
      start_y + height ≥ ops.get_height backing then
    .error .InvalidDimensions
  else
    .ok ⟨backing, start_x, start_y, width, height⟩

/-- The `impl ColorBuf for SubRegionColorBuf` instance from src/ops/mod.rs:
bounds check against the view's own size, then translate by the stored
offset and delegate to the backing buffer's operations. -/
def subRegionOps {σ : Type} (ops : ColorBuf σ) :
    ColorBuf (SubRegionColorBuf σ) where
  get_pixel v x y :=
    if x ≥ v.width ∨ y ≥ v.height then some (.error .InvalidCoordinate)
    else ops.get_pixel v.backing (v.reg_x + x) (v.reg_y + y)
  set_pixel v x y color :=
    if x ≥ v.width ∨ y ≥ v.height then some (.error .InvalidCoordinate)
    else
      (ops.set_pixel v.backing (v.reg_x + x) (v.reg_y + y) color).map
        (fun res => res.map (fun nb => { v with backing := nb }))
  get_width v := v.width
  get_height v := v.height

/-- Error type of the encoder, from src/bitmap/mod.rs (`BitmapError`). -/
inductive BitmapError where
  | ByteArrayTooSmall
deriving DecidableEq, Repr

/-- One pixel store of the `to_bitmap` inner loop body: quantize the four
channels with the saturating truncation and write them at `index` in the
layout's byte order (RGB writes three bytes and no alpha). -/
def writePixel (format : ColorFormat) (depth : BitDepth) (color : Color)
    (index : ℕ) (output : List ℕ) : Option (List ℕ) :=
  match depth with
  | .Eight =>
    let r_byte := quantByte color.r
    let g_byte := quantByte color.g
    let b_byte := quantByte color.b
    let a_byte := quantByte color.a
    match format with
    | .RGBA => do
      let o1 ← setByte output index r_byte
      let o2 ← setByte o1 (index + 1) g_byte
      let o3 ← setByte o2 (index + 2) b_byte
      setByte o3 (index + 3) a_byte
    | .ARGB => do
      let o1 ← setByte output index a_byte
      let o2 ← setByte o1 (index + 1) r_byte
      let o3 ← setByte o2 (index + 2) g_byte
      setByte o3 (index + 3) b_byte
    | .RGB => do
      let o1 ← setByte output index r_byte
      let o2 ← setByte o1 (index + 1) g_byte
      setByte o2 (index + 2) b_byte

/-- The inner `for x in 0..width` loop of `to_bitmap`, over an explicit
list of x coordinates. `buf.get_pixel(x, y).unwrap()` panics (is `none`)
when the source returns an error. -/
def toBitmapRow (getp : ℕ → ℕ → Option (Except ColorBufError Color))
    (format : ColorFormat) (depth : BitDepth) (stride y : ℕ) :
    List ℕ → List ℕ → Option (List ℕ)
  | [], output => some output
  | x :: xs, output =>
    match getp x y with
    | none => none
    | some (.error _) => none
    | some (.ok color) =>
      match writePixel format depth color
          (y * stride + get_bpp_factor format depth * x) output with
      | none => none
      | some output2 => toBitmapRow getp format depth stride y xs output2

/-- The outer `for y in 0..height` loop of `to_bitmap`. -/
def toBitmapRows (getp : ℕ → ℕ → Option (Except ColorBufError Color))
    (format : ColorFormat) (depth : BitDepth) (width stride : ℕ) :
    List ℕ → List ℕ → Option (List ℕ)
  | [], output => some output
  | y :: ys, output =>
    match toBitmapRow getp format depth stride y (List.range width) output with
    | none => none
    | some output2 => toBitmapRows getp format depth width stride ys output2

/-- The encoder `to_bitmap` from src/bitmap/mod.rs. The result carries the
function result, the final contents of `output`, and the stride reported
through the out-parameter; `none` is a panic. The source sets the stride
to `4 * width` for every layout (its alignment simplification). -/
def to_bitmap {σ : Type} (ops : ColorBuf σ) (buf : σ) (format : ColorFormat)
    (depth : BitDepth) (output : List ℕ) :
    Option (Except BitmapError Unit × List ℕ × ℕ) :=
  let stride := 4 * ops.get_width buf
  let req_bitmap_len := ops.get_height buf * stride
  if req_bitmap_len > output.length then
    some (.error .ByteArrayTooSmall, output, stride)
  else
    match toBitmapRows (ops.get_pixel buf) format depth (ops.get_width buf)
        stride (List.range (ops.get_height buf)) output with
    | none => none
    | some out2 => some (.ok (), out2, stride)

/-- Color with channels over `ℝ`, for the gamma blend of src/lib.rs. -/
structure ColorR where
  r : ℝ
  g : ℝ
  b : ℝ
  a : ℝ

/-- Gamma-corrected over-compositing `Color::blend_with_gamma` from
src/lib.rs; `powf` is modelled by `Real.rpow`. -/
noncomputable def ColorR.blend_with_gamma (self src : ColorR) (gamma : ℝ) :
    ColorR :=
  let out_a := src.a + self.a * (1 - src.a)
  let out_r := (src.r ^ gamma * src.a + self.r ^ gamma * (1 - src.a)) ^ (1 / gamma)
  let out_g := (src.g ^ gamma * src.a + self.g ^ gamma * (1 - src.a)) ^ (1 / gamma)
  let out_b := (src.b ^ gamma * src.a + self.b ^ gamma * (1 - src.a)) ^ (1 / gamma)
  ⟨out_r, out_g, out_b, out_a⟩

/-- The byte list that `set_pixel` stores for a color under a layout, read
off the source's match arms: saturating truncation per channel, RGB first
divides r, g, b by alpha and stores no alpha byte. -/
def storedBytes (format : ColorFormat) (depth : BitDepth) (color : Color) :
    List ℕ :=
  match depth, format with
  | .Eight, .RGBA =>
    [quantByte color.r, quantByte color.g, quantByte color.b, quantByte color.a]
  | .Eight, .ARGB =>
    [quantByte color.a, quantByte color.r, quantByte color.g, quantByte color.b]
  | .Eight, .RGB =>
    [quantByte (color.r / color.a), quantByte (color.g / color.a),
      quantByte (color.b / color.a)]

/-- The byte list that `to_bitmap` writes for a color under a layout, read
off the source's match arms: unlike `set_pixel`, the RGB arm does not
divide by alpha, it simply omits the alpha byte. -/
def encodedBytes (format : ColorFormat) (depth : BitDepth) (color : Color) :
    List ℕ :=
  match depth, format with
  | .Eight, .RGBA =>
    [quantByte color.r, quantByte color.g, quantByte color.b, quantByte color.a]
  | .Eight, .ARGB =>
    [quantByte color.a, quantByte color.r, quantByte color.g, quantByte color.b]
  | .Eight, .RGB =>
    [quantByte color.r, quantByte color.g, quantByte color.b]

/-- Modelled from the spec: the `round_to_nearest` conversion the spec
prescribes for `set_pixel` quantization ("Convert each channel value `v`
to a byte via `round_to_nearest(v*255)`"); missing from the source, which
truncates instead. -/
def round_to_nearest (v : ℚ) : ℤ :=
  Int.floor (v + 1 / 2)

/-- Sequential checked stores of a byte list starting at index `i`
(proof-support view of the write chains in `set_pixel` and `to_bitmap`). -/
def writeBytes (l : List ℕ) (i : ℕ) : List ℕ → Option (List ℕ)
  | [] => some l
  | b :: bs => (setByte l i b).bind (fun l2 => writeBytes l2 (i + 1) bs)

/-- All four channels of a color lie in the unit interval. -/
def inUnitRange (c : Color) : Prop :=
  0 ≤ c.r ∧ c.r ≤ 1 ∧ 0 ≤ c.g ∧ c.g ≤ 1 ∧
    0 ≤ c.b ∧ c.b ≤ 1 ∧ 0 ≤ c.a ∧ c.a ≤ 1

instance (c : Color) : Decidable (inUnitRange c) := by
  unfold inUnitRange
  infer_instance

/-- Concrete 4x4 RGBA buffer used by witnesses. -/
def wBuf44 : BitmapColorBuf :=
  BitmapColorBuf.new .RGBA .Eight 4 4 16 (List.replicate 64 0)

/-- Concrete 1x1 RGBA buffer used by witnesses. -/
def wBuf11 : BitmapColorBuf :=
  BitmapColorBuf.new .RGBA .Eight 1 1 4 [1, 2, 3, 4]

/-! ## Proof-support lemmas -/

theorem writeBytes_spec (bs : List ℕ) : ∀ (l : List ℕ) (i : ℕ),
    i + bs.length ≤ l.length →
    ∃ l2, writeBytes l i bs = some l2 ∧ l2.length = l.length ∧
      (∀ j, j < i ∨ i + bs.length ≤ j → l2[j]? = l[j]?) ∧
      (∀ k, k < bs.length → l2[i + k]? = bs[k]?) := by
  induction bs with
  | nil =>
    intro l i _
    exact ⟨l, rfl, rfl, fun j _ => rfl, fun k hk => by simp at hk⟩
  | cons b bs ih =>
    intro l i h
    rw [List.length_cons] at h
    have hi : i < l.length := by omega
    have hset : setByte l i b = some (l.set i b) := by simp [setByte, hi]
    have hlen : (l.set i b).length = l.length := List.length_set ..
    obtain ⟨l2, hw, hl2, hframe, hcontent⟩ :=
      ih (l.set i b) (i + 1) (by rw [hlen]; omega)
    rw [hlen] at hl2
    refine ⟨l2, ?_, hl2, ?_, ?_⟩
    · simp [writeBytes, hset, hw]
    · intro j hj
      rw [List.length_cons] at hj
      have h1 : l2[j]? = (l.set i b)[j]? := hframe j (by omega)
      rw [h1, List.getElem?_set_ne (by omega)]
    · intro k hk
      rw [List.length_cons] at hk
      match k with
      | 0 =>
        have h1 : l2[i + 0]? = (l.set i b)[i]? := by
          rw [Nat.add_zero]
          exact hframe i (by omega)
        rw [h1, List.getElem?_set_self hi]
        simp
      | k + 1 =>
        have h1 : l2[i + (k + 1)]? = l2[i + 1 + k]? := by
          congr 1
          omega
        rw [h1, hcontent k (by omega)]
        simp

theorem set_pixel_eq_writeBytes (bb : BitmapColorBuf) (x y : ℕ) (color : Color)
    (h : ¬(x ≥ bb.pixels_per_row ∨ y ≥ bb.rows)) :
    bb.set_pixel x y color =
      (writeBytes bb.data (bb.get_offset x y)
          (storedBytes bb.format bb.depth color)).map
        (fun d => .ok { bb with data := d }) := by
  obtain ⟨data, format, depth, rows, ppr, stride⟩ := bb
  cases format <;> cases depth <;>
    simp [BitmapColorBuf.set_pixel, if_neg h, storedBytes, writeBytes,
      Option.map_eq_bind, Option.bind_assoc]

theorem writePixel_eq_writeBytes (format : ColorFormat) (depth : BitDepth)
    (color : Color) (index : ℕ) (output : List ℕ) :
    writePixel format depth color index output =
      writeBytes output index (encodedBytes format depth color) := by
  cases format <;> cases depth <;>
    simp [writePixel, encodedBytes, writeBytes, Option.bind_assoc]

theorem encodedBytes_length (format : ColorFormat) (depth : BitDepth)
    (color : Color) :
    (encodedBytes format depth color).length = get_bpp_factor format depth := by
  cases format <;> cases depth <;> rfl

theorem storedBytes_length (format : ColorFormat) (depth : BitDepth)
    (color : Color) :
    (storedBytes format depth color).length = get_bpp_factor format depth := by
  cases format <;> cases depth <;> rfl

theorem quantByte_zero : quantByte 0 = 0 := by
  simp [quantByte]

theorem quantByte_one : quantByte 1 = 255 := by
  norm_num [quantByte]

theorem quantByte_byte (n : ℕ) (h : n ≤ 255) :
    quantByte ((n : ℚ) / 255) = n := by
  unfold quantByte
  rw [div_mul_cancel₀ _ (by norm_num : (255 : ℚ) ≠ 0), Int.floor_natCast,
    Int.toNat_natCast]
  omega

theorem toBitmapRow_spec (getp : ℕ → ℕ → Option (Except ColorBufError Color))
    (format : ColorFormat) (depth : BitDepth) (stride y : ℕ) :
    ∀ (n x0 : ℕ) (out : List ℕ),
    (∀ x, x0 ≤ x → x < x0 + n → ∃ c, getp x y = some (.ok c)) →
    y * stride + get_bpp_factor format depth * (x0 + n) ≤ out.length →
    ∃ out2,
      toBitmapRow getp format depth stride y (List.range' x0 n) out =
        some out2 ∧
      out2.length = out.length ∧
      (∀ j, j < y * stride + get_bpp_factor format depth * x0 ∨
          y * stride + get_bpp_factor format depth * (x0 + n) ≤ j →
          out2[j]? = out[j]?) ∧
      (∀ x c, x0 ≤ x → x < x0 + n → getp x y = some (.ok c) →
        ∀ k, k < get_bpp_factor format depth →
          out2[y * stride + get_bpp_factor format depth * x + k]? =
            (encodedBytes format depth c)[k]?) := by
  intro n
  induction n with
  | zero =>
    intro x0 out _ _
    exact ⟨out, rfl, rfl, fun j _ => rfl, fun x c hx1 hx2 _ _ _ => by omega⟩
  | succ n ih =>
    intro x0 out hpix hfit
    have hBsucc : get_bpp_factor format depth * (x0 + 1) =
        get_bpp_factor format depth * x0 + get_bpp_factor format depth := by
      ring
    have hBall : get_bpp_factor format depth * (x0 + (n + 1)) =
        get_bpp_factor format depth * x0 + get_bpp_factor format depth * n +
          get_bpp_factor format depth := by
      ring
    have hBstep : get_bpp_factor format depth * (x0 + 1 + n) =
        get_bpp_factor format depth * x0 + get_bpp_factor format depth * n +
          get_bpp_factor format depth := by
      ring
    obtain ⟨c0, hc0⟩ := hpix x0 (le_refl x0) (by omega)
    have hwlen : (encodedBytes format depth c0).length =
        get_bpp_factor format depth := encodedBytes_length ..
    obtain ⟨out1, hw1, hlen1, hframe1, hcont1⟩ :=
      writeBytes_spec (encodedBytes format depth c0) out
        (y * stride + get_bpp_factor format depth * x0) (by rw [hwlen]; omega)
    rw [hwlen] at hframe1 hcont1
    obtain ⟨out2, hw2, hlen2, hframe2, hcont2⟩ :=
      ih (x0 + 1) out1
        (fun x hx1 hx2 => hpix x (by omega) (by omega))
        (by rw [hlen1]; omega)
    refine ⟨out2, ?_, by omega, ?_, ?_⟩
    · rw [List.range'_succ]
      simp only [toBitmapRow, hc0, writePixel_eq_writeBytes, hw1, hw2]
    · intro j hj
      have e1 : out2[j]? = out1[j]? := by
        apply hframe2
        omega
      have e2 : out1[j]? = out[j]? := by
        apply hframe1
        omega
      rw [e1, e2]
    · intro x c hx1 hx2 hgc k hk
      rcases Nat.eq_or_lt_of_le hx1 with heq | hlt
      · have hcc : c = c0 := by
          rw [← heq] at hgc
          have h := hc0.symm.trans hgc
          simp only [Option.some.injEq, Except.ok.injEq] at h
          exact h.symm
        subst hcc
        rw [← heq]
        have e1 : out2[y * stride + get_bpp_factor format depth * x0 + k]? =
            out1[y * stride + get_bpp_factor format depth * x0 + k]? := by
          apply hframe2
          left
          omega
        rw [e1]
        exact hcont1 k hk
      · exact hcont2 x c (by omega) (by omega) hgc k hk

theorem toBitmapRows_spec (getp : ℕ → ℕ → Option (Except ColorBufError Color))
    (format : ColorFormat) (depth : BitDepth) (width stride : ℕ)
    (hbw : get_bpp_factor format depth * width ≤ stride) :
    ∀ (m y0 : ℕ) (out : List ℕ),
    (∀ x y, x < width → y0 ≤ y → y < y0 + m → ∃ c, getp x y = some (.ok c)) →
    (y0 + m) * stride ≤ out.length →
    ∃ out2,
      toBitmapRows getp format depth width stride (List.range' y0 m) out =
        some out2 ∧
      out2.length = out.length ∧
      (∀ j, j < y0 * stride → out2[j]? = out[j]?) ∧
      (∀ x y c, x < width → y0 ≤ y → y < y0 + m →
        getp x y = some (.ok c) →
        ∀ k, k < get_bpp_factor format depth →
          out2[y * stride + get_bpp_factor format depth * x + k]? =
            (encodedBytes format depth c)[k]?) := by
  intro m
  induction m with
  | zero =>
    intro y0 out _ _
    exact ⟨out, rfl, rfl, fun j _ => rfl, fun x y c _ hy1 hy2 _ _ _ => by omega⟩
  | succ m ih =>
    intro y0 out hpix hfit
    have hrow : (y0 + 1) * stride = y0 * stride + stride := by ring
    have hall : (y0 + (m + 1)) * stride =
        y0 * stride + stride + m * stride := by
      ring
    have hstep : (y0 + 1 + m) * stride =
        y0 * stride + stride + m * stride := by
      ring
    obtain ⟨out1, hw1, hlen1, hframe1, hcont1⟩ :=
      toBitmapRow_spec getp format depth stride y0 width 0 out
        (fun x hx1 hx2 => hpix x y0 (by omega) (le_refl y0) (by omega))
        (by simp only [Nat.zero_add]; omega)
    simp only [Nat.zero_add, Nat.mul_zero, Nat.add_zero] at hframe1 hcont1
    obtain ⟨out2, hw2, hlen2, hframe2, hcont2⟩ :=
      ih (y0 + 1) out1
        (fun x y hx hy1 hy2 => hpix x y hx (by omega) (by omega))
        (by rw [hlen1]; omega)
    refine ⟨out2, ?_, by omega, ?_, ?_⟩
    · rw [List.range'_succ]
      simp only [toBitmapRows, List.range_eq_range', hw1, hw2]
    · intro j hj
      have e1 : out2[j]? = out1[j]? := by
        apply hframe2
        omega
      have e2 : out1[j]? = out[j]? := by
        apply hframe1
        omega
      rw [e1, e2]
    · intro x y c hx hy1 hy2 hgc k hk
      rcases Nat.eq_or_lt_of_le hy1 with heq | hlt
      · have hxx : get_bpp_factor format depth * (x + 1) ≤
            get_bpp_factor format depth * width :=
          Nat.mul_le_mul_left _ (by omega)
        have hexp : get_bpp_factor format depth * (x + 1) =
            get_bpp_factor format depth * x + get_bpp_factor format depth := by
          ring
        rw [← heq] at hgc ⊢
        have e1 : out2[y0 * stride + get_bpp_factor format depth * x + k]? =
            out1[y0 * stride + get_bpp_factor format depth * x + k]? := by
          apply hframe2
          omega
        rw [e1]
        exact hcont1 x c (by omega) (by omega) hgc k hk
      · exact hcont2 x y c hx (by omega) (by omega) hgc k hk

theorem to_bitmap_success {σ : Type} (ops : ColorBuf σ) (buf : σ)
    (format : ColorFormat) (depth : BitDepth) (output : List ℕ)
    (hpix : ∀ x y, x < ops.get_width buf → y < ops.get_height buf →
      ∃ c, ops.get_pixel buf x y = some (.ok c))
    (hlen : ops.get_height buf * (4 * ops.get_width buf) ≤ output.length) :
    ∃ out2,
      to_bitmap ops buf format depth output =
        some (.ok (), out2, 4 * ops.get_width buf) ∧
      out2.length = output.length ∧
      (∀ x y c, x < ops.get_width buf → y < ops.get_height buf →
        ops.get_pixel buf x y = some (.ok c) →
        ∀ k, k < get_bpp_factor format depth →
          out2[y * (4 * ops.get_width buf) +
            get_bpp_factor format depth * x + k]? =
            (encodedBytes format depth c)[k]?) := by
  have hbpp : get_bpp_factor format depth ≤ 4 := by
    cases format <;> cases depth <;> decide
  have hbw : get_bpp_factor format depth * ops.get_width buf ≤
      4 * ops.get_width buf := Nat.mul_le_mul_right _ hbpp
  obtain ⟨out2, hw, hlen2, _, hcont⟩ :=
    toBitmapRows_spec (ops.get_pixel buf) format depth (ops.get_width buf)
      (4 * ops.get_width buf) hbw (ops.get_height buf) 0 output
      (fun x y hx _ hy => hpix x y hx (by omega))
      (by simp only [Nat.zero_add]; omega)
  refine ⟨out2, ?_, hlen2, ?_⟩
  · simp only [to_bitmap]
    rw [if_neg (by omega), List.range_eq_range', hw]
  · intro x y c hx hy hgc k hk
    exact hcont x y c hx (by omega) (by simp only [Nat.zero_add]; omega) hgc k hk

theorem to_bitmap_stride_report {σ : Type} (ops : ColorBuf σ) (buf : σ)
    (format : ColorFormat) (depth : BitDepth) (output : List ℕ)
    (res : Except BitmapError Unit × List ℕ × ℕ)
    (h : to_bitmap ops buf format depth output = some res) :
    res.2.2 = 4 * ops.get_width buf := by
  simp only [to_bitmap] at h
  split at h
  · cases h
    rfl
  · split at h
    · exact absurd h (by simp)
    · cases h
      rfl

theorem quantByte_dequant_close (v : ℚ) (h0 : 0 ≤ v) (h1 : v ≤ 1) :
    |((quantByte v : ℕ) : ℚ) / 255 - v| ≤ 1 / 255 := by
  have hm0 : (0 : ℚ) ≤ v * 255 := by positivity
  have hm1 : v * 255 ≤ 255 := by linarith
  have hfl0 : (0 : ℤ) ≤ Int.floor (v * 255) := Int.floor_nonneg.mpr hm0
  have hfl255 : Int.floor (v * 255) ≤ 255 := by
    have := Int.floor_le_floor hm1
    simpa using this
  have hq : ((quantByte v : ℕ) : ℚ) = ((Int.floor (v * 255) : ℤ) : ℚ) := by
    unfold quantByte
    rw [Nat.min_eq_right (by omega)]
    exact_mod_cast Int.toNat_of_nonneg hfl0
  rw [hq, abs_le]
  have hle : ((Int.floor (v * 255) : ℤ) : ℚ) ≤ v * 255 := Int.floor_le _
  have hlt : v * 255 < ((Int.floor ((v : ℚ) * 255) : ℤ) : ℚ) + 1 :=
    Int.lt_floor_add_one _
  constructor <;> linarith

theorem get_pixel_decode (format : ColorFormat) (depth : BitDepth)
    (rows ppr stride : ℕ) (data : List ℕ) (x y : ℕ) (c : Color)
    (hx : x < ppr) (hy : y < rows)
    (hread : ∀ k, k < get_bpp_factor format depth →
      data[y * stride + get_bpp_factor format depth * x + k]? =
        (encodedBytes format depth c)[k]?) :
    (BitmapColorBuf.new format depth rows ppr stride data).get_pixel x y =
      some (.ok ⟨(quantByte c.r : ℚ) / 255, (quantByte c.g : ℚ) / 255,
        (quantByte c.b : ℚ) / 255,
        match format with
        | .RGB => 1
        | _ => (quantByte c.a : ℚ) / 255⟩) := by
  cases depth
  cases format
  · have h0 := hread 0 (by decide)
    have h1 := hread 1 (by decide)
    have h2 := hread 2 (by decide)
    have h3 := hread 3 (by decide)
    simp only [encodedBytes] at h0 h1 h2 h3
    simp only [Nat.add_zero, List.getElem?_cons_zero,
      List.getElem?_cons_succ] at h0 h1 h2 h3
    simp only [BitmapColorBuf.get_pixel, BitmapColorBuf.new,
      BitmapColorBuf.get_offset]
    rw [if_neg (by omega)]
    simp [h0, h1, h2, h3]
  · have h0 := hread 0 (by decide)
    have h1 := hread 1 (by decide)
    have h2 := hread 2 (by decide)
    have h3 := hread 3 (by decide)
    simp only [encodedBytes] at h0 h1 h2 h3
    simp only [Nat.add_zero, List.getElem?_cons_zero,
      List.getElem?_cons_succ] at h0 h1 h2 h3
    simp only [BitmapColorBuf.get_pixel, BitmapColorBuf.new,
      BitmapColorBuf.get_offset]
    rw [if_neg (by omega)]
    simp [h0, h1, h2, h3]
  · have h0 := hread 0 (by decide)
    have h1 := hread 1 (by decide)
    have h2 := hread 2 (by decide)
    simp only [encodedBytes] at h0 h1 h2
    simp only [Nat.add_zero, List.getElem?_cons_zero,
      List.getElem?_cons_succ] at h0 h1 h2
    simp only [BitmapColorBuf.get_pixel, BitmapColorBuf.new,
      BitmapColorBuf.get_offset]
    rw [if_neg (by omega)]
    simp [h0, h1, h2]

theorem wBuf11_pixel :
    bitmapColorBufOps.get_pixel wBuf11 0 0 =
      some (.ok ⟨1 / 255, 2 / 255, 3 / 255, 4 / 255⟩) := by
  simp [bitmapColorBufOps, wBuf11, BitmapColorBuf.new, BitmapColorBuf.get_pixel,
    BitmapColorBuf.get_offset]

theorem wBuf11_contract : ∀ x y, x < bitmapColorBufOps.get_width wBuf11 →
    y < bitmapColorBufOps.get_height wBuf11 →
    ∃ c, bitmapColorBufOps.get_pixel wBuf11 x y = some (.ok c) := by
  intro x y hx hy
  have hx0 : x = 0 := by
    simpa [bitmapColorBufOps, wBuf11, BitmapColorBuf.new,
      BitmapColorBuf.get_width] using hx
  have hy0 : y = 0 := by
    simpa [bitmapColorBufOps, wBuf11, BitmapColorBuf.new,
      BitmapColorBuf.get_height] using hy
  subst hx0
  subst hy0
  exact ⟨⟨1 / 255, 2 / 255, 3 / 255, 4 / 255⟩, wBuf11_pixel⟩

theorem wBuf11_contract_range : ∀ x y,
    x < bitmapColorBufOps.get_width wBuf11 →
    y < bitmapColorBufOps.get_height wBuf11 →
    ∃ c, bitmapColorBufOps.get_pixel wBuf11 x y = some (.ok c) ∧
      inUnitRange c := by
  intro x y hx hy
  have hx0 : x = 0 := by
    simpa [bitmapColorBufOps, wBuf11, BitmapColorBuf.new,
      BitmapColorBuf.get_width] using hx
  have hy0 : y = 0 := by
    simpa [bitmapColorBufOps, wBuf11, BitmapColorBuf.new,
      BitmapColorBuf.get_height] using hy
  subst hx0
  subst hy0
  refine ⟨⟨1 / 255, 2 / 255, 3 / 255, 4 / 255⟩, wBuf11_pixel, ?_⟩
  norm_num [inUnitRange]

/-! ## Claim theorems: bounds, sub-region, encoder errors, blend -/

/-- C4: on both the bitmap codec and the sub-region view, `get_pixel` and
`set_pixel` return the `InvalidCoordinate` error (and in particular do not
panic or clamp) for every coordinate with `x ≥ width` or `y ≥ height`. -/
theorem oob_coordinate_errors {σ : Type} (bb : BitmapColorBuf) (x y : ℕ)
    (h1 : x ≥ bb.pixels_per_row ∨ y ≥ bb.rows) (c : Color)
    (ops : ColorBuf σ) (v : SubRegionColorBuf σ) (x2 y2 : ℕ)
    (h2 : x2 ≥ v.width ∨ y2 ≥ v.height) (c2 : Color) :
    bb.get_pixel x y = some (.error .InvalidCoordinate) ∧
    bb.set_pixel x y c = some (.error .InvalidCoordinate) ∧
    (subRegionOps ops).get_pixel v x2 y2 = some (.error .InvalidCoordinate) ∧
    (subRegionOps ops).set_pixel v x2 y2 c2 = some (.error .InvalidCoordinate) := by
  refine ⟨?_, ?_, ?_, ?_⟩
  · simp only [BitmapColorBuf.get_pixel]
    rw [if_pos h1]
  · simp only [BitmapColorBuf.set_pixel]
    rw [if_pos h1]
  · simp only [subRegionOps]
    rw [if_pos h2]
  · simp only [subRegionOps]
    rw [if_pos h2]

/-- Witness for C4 at a 2x2 bitmap and a 1x1 view, coordinates just past
the right edge. -/
theorem oob_coordinate_errors_witness :
    (BitmapColorBuf.new .RGBA .Eight 2 2 8 (List.replicate 16 0)).get_pixel 2 0 =
      some (.error .InvalidCoordinate) ∧
    (BitmapColorBuf.new .RGBA .Eight 2 2 8 (List.replicate 16 0)).set_pixel 2 0
      ⟨0, 0, 0, 0⟩ = some (.error .InvalidCoordinate) ∧
    (subRegionOps bitmapColorBufOps).get_pixel ⟨wBuf44, 0, 0, 1, 1⟩ 1 0 =
      some (.error .InvalidCoordinate) ∧
    (subRegionOps bitmapColorBufOps).set_pixel ⟨wBuf44, 0, 0, 1, 1⟩ 1 0
      ⟨0, 0, 0, 0⟩ = some (.error .InvalidCoordinate) :=
  oob_coordinate_errors (BitmapColorBuf.new .RGBA .Eight 2 2 8 (List.replicate 16 0))
    2 0 (Or.inl (by decide)) ⟨0, 0, 0, 0⟩ bitmapColorBufOps
    ⟨wBuf44, 0, 0, 1, 1⟩ 1 0 (Or.inl (by decide)) ⟨0, 0, 0, 0⟩

/-- C5: `SubRegionColorBuf::new` fails with `InvalidDimensions` exactly
when the rectangle is not strictly interior to the backing buffer, and on
success stores the given offset and size. -/
theorem subregion_new_validation {σ : Type} (ops : ColorBuf σ) (backing : σ)
    (start_x start_y width height : ℕ) :
    (¬(start_x + width < ops.get_width backing ∧
        start_y + height < ops.get_height backing) →
      SubRegionColorBuf.new ops backing start_x start_y width height =
        .error .InvalidDimensions) ∧
    (start_x + width < ops.get_width backing →
      start_y + height < ops.get_height backing →
      SubRegionColorBuf.new ops backing start_x start_y width height =
        .ok ⟨backing, start_x, start_y, width, height⟩) := by
  constructor
  · intro h
    simp only [SubRegionColorBuf.new]
    rw [if_pos (by omega)]
  · intro hA hB
    simp only [SubRegionColorBuf.new]
    rw [if_neg (by omega)]

/-- Witness for C5: over a 4x4 backing buffer, a 2x2 region at (1, 1) is
accepted with the given fields, while a 4x4 region at (0, 0) is rejected. -/
theorem subregion_new_validation_witness :
    SubRegionColorBuf.new bitmapColorBufOps wBuf44 1 1 2 2 =
      .ok ⟨wBuf44, 1, 1, 2, 2⟩ ∧
    SubRegionColorBuf.new bitmapColorBufOps wBuf44 0 0 4 4 =
      .error .InvalidDimensions :=
  ⟨(subregion_new_validation bitmapColorBufOps wBuf44 1 1 2 2).2
      (by decide) (by decide),
    (subregion_new_validation bitmapColorBufOps wBuf44 0 0 4 4).1 (by decide)⟩

/-- C6: for in-bounds view coordinates the sub-region view translates by
the stored offset and delegates to the backing buffer, forwarding its
result unchanged (state rewrapped), and reports its own size. -/
theorem subregion_delegation {σ : Type} (ops : ColorBuf σ)
    (v : SubRegionColorBuf σ) (x y : ℕ) (hx : x < v.width)
    (hy : y < v.height) (color : Color) :
    (subRegionOps ops).get_pixel v x y =
      ops.get_pixel v.backing (v.reg_x + x) (v.reg_y + y) ∧
    (subRegionOps ops).set_pixel v x y color =
      (ops.set_pixel v.backing (v.reg_x + x) (v.reg_y + y) color).map
        (fun res => res.map (fun nb => { v with backing := nb })) ∧
    (subRegionOps ops).get_width v = v.width ∧
    (subRegionOps ops).get_height v = v.height := by
  refine ⟨?_, ?_, rfl, rfl⟩
  · simp only [subRegionOps]
    rw [if_neg (by omega)]
  · simp only [subRegionOps]
    rw [if_neg (by omega)]

/-- Witness for C6: a 2x2 view at offset (1, 1) of a 4x4 buffer maps its
local (0, 0) to backing (1, 1) and reports size 2x2. -/
theorem subregion_delegation_witness :
    (subRegionOps bitmapColorBufOps).get_pixel ⟨wBuf44, 1, 1, 2, 2⟩ 0 0 =
      bitmapColorBufOps.get_pixel wBuf44 (1 + 0) (1 + 0) ∧
    (subRegionOps bitmapColorBufOps).set_pixel ⟨wBuf44, 1, 1, 2, 2⟩ 0 0
        ⟨1, 1, 1, 1⟩ =
      (bitmapColorBufOps.set_pixel wBuf44 (1 + 0) (1 + 0) ⟨1, 1, 1, 1⟩).map
        (fun res => res.map (fun nb => ⟨nb, 1, 1, 2, 2⟩)) ∧
    (subRegionOps bitmapColorBufOps).get_width ⟨wBuf44, 1, 1, 2, 2⟩ = 2 ∧
    (subRegionOps bitmapColorBufOps).get_height ⟨wBuf44, 1, 1, 2, 2⟩ = 2 :=
  subregion_delegation bitmapColorBufOps ⟨wBuf44, 1, 1, 2, 2⟩ 0 0
    (by decide) (by decide) ⟨1, 1, 1, 1⟩

/-- C7: when the destination is shorter than `height * stride` (with the
canonical stride `4 * width` the source computes), `to_bitmap` returns the
`ByteArrayTooSmall` error and the destination bytes are unchanged. -/
theorem to_bitmap_too_small {σ : Type} (ops : ColorBuf σ) (buf : σ)
    (format : ColorFormat) (depth : BitDepth) (output : List ℕ)
    (h : output.length < ops.get_height buf * (4 * ops.get_width buf)) :
    to_bitmap ops buf format depth output =
      some (.error .ByteArrayTooSmall, output, 4 * ops.get_width buf) := by
  simp only [to_bitmap]
  rw [if_pos h]

/-- Witness for C7: a 1x1 buffer into an empty destination fails with the
error, unchanged (empty) destination, and reported stride 4. -/
theorem to_bitmap_too_small_witness :
    to_bitmap bitmapColorBufOps wBuf11 .RGBA .Eight [] =
      some (.error .ByteArrayTooSmall, [], 4) :=
  to_bitmap_too_small bitmapColorBufOps wBuf11 .RGBA .Eight [] (by decide)

/-- C8: blending opaque white over opaque black at gamma 2.2 yields opaque
white; blending transparent black over opaque white yields opaque white
for every gamma; and the output alpha is always `a_fg + a_bg * (1 - a_fg)`. -/
theorem blend_gamma_examples :
    ColorR.blend_with_gamma ⟨0, 0, 0, 1⟩ ⟨1, 1, 1, 1⟩ (2.2 : ℝ) = ⟨1, 1, 1, 1⟩ ∧
    (∀ gamma : ℝ,
      ColorR.blend_with_gamma ⟨1, 1, 1, 1⟩ ⟨0, 0, 0, 0⟩ gamma = ⟨1, 1, 1, 1⟩) ∧
    (∀ (self src : ColorR) (gamma : ℝ),
      (ColorR.blend_with_gamma self src gamma).a =
        src.a + self.a * (1 - src.a)) := by
  refine ⟨?_, fun gamma => ?_, fun self src gamma => rfl⟩
  · simp [ColorR.blend_with_gamma, Real.one_rpow]
  · simp [ColorR.blend_with_gamma, Real.one_rpow]

/-- C9: the codec constructor performs no validation: over an empty byte
region with declared size 1x1 and stride 4 it succeeds, the data is
shorter than `rows * stride`, and both accessors at the in-bounds
coordinate (0, 0) panic (`none`) instead of returning an error. -/
theorem codec_no_validation_panic :
    (BitmapColorBuf.new .RGBA .Eight 1 1 4 []).data.length <
      (BitmapColorBuf.new .RGBA .Eight 1 1 4 []).rows *
        (BitmapColorBuf.new .RGBA .Eight 1 1 4 []).stride ∧
    0 < (BitmapColorBuf.new .RGBA .Eight 1 1 4 []).pixels_per_row ∧
    0 < (BitmapColorBuf.new .RGBA .Eight 1 1 4 []).rows ∧
    (BitmapColorBuf.new .RGBA .Eight 1 1 4 []).get_pixel 0 0 = none ∧
    (BitmapColorBuf.new .RGBA .Eight 1 1 4 []).set_pixel 0 0 ⟨0, 0, 0, 0⟩ =
      none := by
  refine ⟨by decide, by decide, by decide, rfl, rfl⟩

/-- Counterexample to C1 as stated: for a 1x1 RGB buffer, `to_bitmap`
succeeds and reports stride 4, not `bytes_per_pixel(RGB) * width = 3`. -/
theorem to_bitmap_rgb_stride_cex :
    to_bitmap bitmapColorBufOps
        (BitmapColorBuf.new .RGB .Eight 1 1 3 [0, 0, 0]) .RGB .Eight
        [9, 9, 9, 9] =
      some (.ok (), [0, 0, 0, 9], 4) ∧
    (4 : ℕ) ≠ get_bpp_factor .RGB .Eight *
      bitmapColorBufOps.get_width
        (BitmapColorBuf.new .RGB .Eight 1 1 3 [0, 0, 0]) := by
  refine ⟨?_, by decide⟩
  have hr : List.range 1 = [0] := rfl
  simp [to_bitmap, bitmapColorBufOps, BitmapColorBuf.new,
    BitmapColorBuf.get_width, BitmapColorBuf.get_height, toBitmapRows,
    toBitmapRow, hr, BitmapColorBuf.get_pixel,
    BitmapColorBuf.get_offset, writePixel, setByte, quantByte_zero,
    quantByte_one]

/-- Counterexample to C2 as stated: `set_pixel` stores byte 170 for channel
value 0.67, while the claimed `round_to_nearest(0.67 * 255)` is 171. -/
theorem set_pixel_rounding_cex :
    ((BitmapColorBuf.new .RGBA .Eight 1 1 4 [0, 0, 0, 0]).set_pixel 0 0
        ⟨67 / 100, 0, 0, 1⟩).map (fun res => res.map (fun bb => bb.data)) =
      some (.ok [170, 0, 0, 255]) ∧
    round_to_nearest ((67 / 100 : ℚ) * 255) = 171 ∧ (170 : ℕ) ≠ 171 := by
  have h67 : quantByte (67 / 100) = 170 := by
    norm_num [quantByte]
    decide
  refine ⟨?_, ?_, by decide⟩
  · simp [BitmapColorBuf.new, BitmapColorBuf.set_pixel,
      BitmapColorBuf.get_offset, setByte, h67, quantByte_zero, quantByte_one,
      Except.map]
  · norm_num [round_to_nearest]

/-- C2 (amended): for every in-bounds `set_pixel` whose byte writes fit in
the data region, each channel value `v` is stored as the saturating
truncation of `v * 255` (for the RGB layout, r, g, b are first divided by
alpha and no alpha byte is stored), written in the ChannelOrder's byte
order at the pixel's offset; all other bytes are unchanged. -/
theorem set_pixel_quantization (bb : BitmapColorBuf) (x y : ℕ) (color : Color)
    (hx : x < bb.pixels_per_row) (hy : y < bb.rows)
    (hfit : bb.get_offset x y + get_bpp_factor bb.format bb.depth ≤
      bb.data.length)
    (_halpha : bb.format = .RGB → color.a ≠ 0) :
    ∃ bb2, bb.set_pixel x y color = some (.ok bb2) ∧
      bb2.data.length = bb.data.length ∧
      (∀ j, j < bb.get_offset x y ∨
          bb.get_offset x y + get_bpp_factor bb.format bb.depth ≤ j →
          bb2.data[j]? = bb.data[j]?) ∧
      (∀ k, k < get_bpp_factor bb.format bb.depth →
          bb2.data[bb.get_offset x y + k]? =
            (storedBytes bb.format bb.depth color)[k]?) := by
  have hnb : ¬(x ≥ bb.pixels_per_row ∨ y ≥ bb.rows) := by omega
  rw [set_pixel_eq_writeBytes bb x y color hnb]
  obtain ⟨d, hw, hdlen, hframe, hcontent⟩ :=
    writeBytes_spec (storedBytes bb.format bb.depth color) bb.data
      (bb.get_offset x y) (by rw [storedBytes_length]; exact hfit)
  refine ⟨{ bb with data := d }, ?_, hdlen, ?_, ?_⟩
  · rw [hw]
    rfl
  · intro j hj
    exact hframe j (by rw [storedBytes_length] at *; omega)
  · intro k hk
    exact hcontent k (by rw [storedBytes_length]; exact hk)

/-- Witness for C2 (amended) at an ARGB 1x1 buffer: the four stored bytes
are the truncated channels in A, R, G, B order. -/
theorem set_pixel_quantization_witness :
    ∃ bb2, (BitmapColorBuf.new .ARGB .Eight 1 1 4 [7, 7, 7, 7]).set_pixel 0 0
        ⟨1, 67 / 100, 0, 1 / 2⟩ = some (.ok bb2) ∧
      bb2.data.length =
        (BitmapColorBuf.new .ARGB .Eight 1 1 4 [7, 7, 7, 7]).data.length ∧
      (∀ j, j < (BitmapColorBuf.new .ARGB .Eight 1 1 4 [7, 7, 7, 7]).get_offset 0 0 ∨
          (BitmapColorBuf.new .ARGB .Eight 1 1 4 [7, 7, 7, 7]).get_offset 0 0 +
            get_bpp_factor .ARGB .Eight ≤ j →
          bb2.data[j]? =
            (BitmapColorBuf.new .ARGB .Eight 1 1 4 [7, 7, 7, 7]).data[j]?) ∧
      (∀ k, k < get_bpp_factor .ARGB .Eight →
          bb2.data[(BitmapColorBuf.new .ARGB .Eight 1 1 4 [7, 7, 7, 7]).get_offset 0 0 + k]? =
            (storedBytes .ARGB .Eight ⟨1, 67 / 100, 0, 1 / 2⟩)[k]?) :=
  set_pixel_quantization (BitmapColorBuf.new .ARGB .Eight 1 1 4 [7, 7, 7, 7])
    0 0 ⟨1, 67 / 100, 0, 1 / 2⟩ (by decide) (by decide) (by decide)
    (fun h => by simp [BitmapColorBuf.new] at h)

/-- C1 (amended): `to_bitmap` reports through its out-parameter, for every
layout, the stride `4 * buffer.width()` (the source's 32-bit alignment
simplification: this equals `bytes_per_pixel(layout) * width` for RGBA and
ARGB but is `4 * width`, not `3 * width`, for RGB), and writes the pixel
for coordinate (x, y) starting at byte offset
`y * stride + x * bytes_per_pixel(layout)`. -/
theorem to_bitmap_stride_and_offsets {σ : Type} (ops : ColorBuf σ) (buf : σ)
    (format : ColorFormat) (depth : BitDepth) (output : List ℕ)
    (hpix : ∀ x y, x < ops.get_width buf → y < ops.get_height buf →
      ∃ c, ops.get_pixel buf x y = some (.ok c))
    (hlen : ops.get_height buf * (4 * ops.get_width buf) ≤ output.length) :
    (∀ (output0 : List ℕ) res,
      to_bitmap ops buf format depth output0 = some res →
      res.2.2 = 4 * ops.get_width buf) ∧
    ∃ out2,
      to_bitmap ops buf format depth output =
        some (.ok (), out2, 4 * ops.get_width buf) ∧
      ∀ x y c, x < ops.get_width buf → y < ops.get_height buf →
        ops.get_pixel buf x y = some (.ok c) →
        ∀ k, k < get_bpp_factor format depth →
          out2[y * (4 * ops.get_width buf) +
            get_bpp_factor format depth * x + k]? =
            (encodedBytes format depth c)[k]? := by
  refine ⟨fun output0 res h =>
    to_bitmap_stride_report ops buf format depth output0 res h, ?_⟩
  obtain ⟨out2, hw, _, hcont⟩ :=
    to_bitmap_success ops buf format depth output hpix hlen
  exact ⟨out2, hw, hcont⟩

/-- Witness for C1 (amended) at a concrete 1x1 RGBA buffer. -/
theorem to_bitmap_stride_and_offsets_witness :
    (∀ (output0 : List ℕ) res,
      to_bitmap bitmapColorBufOps wBuf11 .RGBA .Eight output0 = some res →
      res.2.2 = 4) ∧
    ∃ out2,
      to_bitmap bitmapColorBufOps wBuf11 .RGBA .Eight [0, 0, 0, 0] =
        some (.ok (), out2, 4) ∧
      ∀ x y c, x < 1 → y < 1 →
        bitmapColorBufOps.get_pixel wBuf11 x y = some (.ok c) →
        ∀ k, k < get_bpp_factor .RGBA .Eight →
          out2[y * 4 + get_bpp_factor .RGBA .Eight * x + k]? =
            (encodedBytes .RGBA .Eight c)[k]? :=
  to_bitmap_stride_and_offsets bitmapColorBufOps wBuf11 .RGBA .Eight
    [0, 0, 0, 0] wBuf11_contract (by decide)

/-- C10: `to_bitmap` unwraps every `get_pixel` result of its source, and
under the hypothesis that the source satisfies the PixelBuffer contract
(every in-bounds read returns `Ok`), `to_bitmap` never panics: the unwrap
is unreachable, since only coordinates in `[0,width) x [0,height)` are
read. -/
theorem to_bitmap_no_panic {σ : Type} (ops : ColorBuf σ) (buf : σ)
    (format : ColorFormat) (depth : BitDepth) (output : List ℕ)
    (hpix : ∀ x y, x < ops.get_width buf → y < ops.get_height buf →
      ∃ c, ops.get_pixel buf x y = some (.ok c)) :
    to_bitmap ops buf format depth output ≠ none := by
  by_cases hbig :
    ops.get_height buf * (4 * ops.get_width buf) > output.length
  · simp only [to_bitmap]
    rw [if_pos hbig]
    simp
  · obtain ⟨out2, hw, _, _⟩ :=
      to_bitmap_success ops buf format depth output hpix (by omega)
    rw [hw]
    simp

/-- Witness for C10 at a concrete 1x1 RGBA buffer (with an undersized
destination, where the function returns an error rather than panicking). -/
theorem to_bitmap_no_panic_witness :
    to_bitmap bitmapColorBufOps wBuf11 .RGBA .Eight [] ≠ none :=
  to_bitmap_no_panic bitmapColorBufOps wBuf11 .RGBA .Eight [] wBuf11_contract

/-- C3: encoding a PixelBuffer whose channels lie in [0, 1] with
`to_bitmap` into layout L and re-decoding through a codec constructed over
the resulting bytes with the same L and the reported stride yields, at
every coordinate, a pixel whose r, g, b channels differ from the original
by at most 1/255; alpha likewise for RGBA/ARGB, and alpha is exactly 1 on
decode for RGB. -/
theorem to_bitmap_roundtrip {σ : Type} (ops : ColorBuf σ) (buf : σ)
    (format : ColorFormat) (depth : BitDepth) (output : List ℕ)
    (hpix : ∀ x y, x < ops.get_width buf → y < ops.get_height buf →
      ∃ c, ops.get_pixel buf x y = some (.ok c) ∧ inUnitRange c)
    (hlen : ops.get_height buf * (4 * ops.get_width buf) ≤ output.length) :
    ∃ out2,
      to_bitmap ops buf format depth output =
        some (.ok (), out2, 4 * ops.get_width buf) ∧
      ∀ x y c, x < ops.get_width buf → y < ops.get_height buf →
        ops.get_pixel buf x y = some (.ok c) →
        ∃ c2,
          (BitmapColorBuf.new format depth (ops.get_height buf)
              (ops.get_width buf) (4 * ops.get_width buf) out2).get_pixel
              x y = some (.ok c2) ∧
          |c2.r - c.r| ≤ 1 / 255 ∧ |c2.g - c.g| ≤ 1 / 255 ∧
          |c2.b - c.b| ≤ 1 / 255 ∧
          ((format = .RGBA ∨ format = .ARGB) → |c2.a - c.a| ≤ 1 / 255) ∧
          (format = .RGB → c2.a = 1) := by
  obtain ⟨out2, hw, hlen2, hcont⟩ :=
    to_bitmap_success ops buf format depth output
      (fun x y hx hy => (hpix x y hx hy).imp (fun c hc => hc.1)) hlen
  refine ⟨out2, hw, ?_⟩
  intro x y c hx hy hgc
  obtain ⟨c9, hc9, hrange⟩ := hpix x y hx hy
  have hcc : c = c9 := by
    have h := hgc.symm.trans hc9
    simpa using h
  subst hcc
  have hdec := get_pixel_decode format depth (ops.get_height buf)
    (ops.get_width buf) (4 * ops.get_width buf) out2 x y c hx hy
    (hcont x y c hx hy hgc)
  obtain ⟨hr0, hr1, hg0, hg1, hb0, hb1, ha0, ha1⟩ := hrange
  refine ⟨_, hdec, quantByte_dequant_close c.r hr0 hr1,
    quantByte_dequant_close c.g hg0 hg1,
    quantByte_dequant_close c.b hb0 hb1, ?_, ?_⟩
  · intro hf
    rcases hf with rfl | rfl
    · exact quantByte_dequant_close c.a ha0 ha1
    · exact quantByte_dequant_close c.a ha0 ha1
  · intro hf
    subst hf
    rfl

/-- Witness for C3 at a concrete 1x1 RGBA buffer with bytes 1, 2, 3, 4. -/
theorem to_bitmap_roundtrip_witness :
    ∃ out2,
      to_bitmap bitmapColorBufOps wBuf11 .RGBA .Eight [0, 0, 0, 0] =
        some (.ok (), out2, 4) ∧
      ∀ x y c, x < 1 → y < 1 →
        bitmapColorBufOps.get_pixel wBuf11 x y = some (.ok c) →
        ∃ c2,
          (BitmapColorBuf.new .RGBA .Eight 1 1 4 out2).get_pixel x y =
            some (.ok c2) ∧
          |c2.r - c.r| ≤ 1 / 255 ∧ |c2.g - c.g| ≤ 1 / 255 ∧
          |c2.b - c.b| ≤ 1 / 255 ∧
          ((ColorFormat.RGBA = ColorFormat.RGBA ∨
              ColorFormat.RGBA = ColorFormat.ARGB) → |c2.a - c.a| ≤ 1 / 255) ∧
          (ColorFormat.RGBA = ColorFormat.RGB → c2.a = 1) :=
  to_bitmap_roundtrip bitmapColorBufOps wBuf11 .RGBA .Eight [0, 0, 0, 0]
    wBuf11_contract_range (by decide)

end Colorbuf
